import Mathlib

/-!
Verification development for the coin-collector multiplayer game
(terminal client `game-client.js` + server `game-server.js`).

The server simulates a shared world (players, coins, scores) at a fixed
tick rate and broadcasts snapshots to clients through a fixed-latency
channel; the client buffers snapshots and renders a time-interpolated view.

All numeric wire/world values are embedded as exact rationals; the
diagonal-movement analysis additionally uses a real-valued copy of the
displacement computation so that the square root of two is exact.
-/

namespace CoinGame

/-- Model of a JavaScript runtime value, as far as the message-handling code
observes one: the server stores whatever value arrived in the parsed JSON
message, so intent values can be absent, null, or of unexpected shape. -/
inductive JSVal where
  | undef : JSVal
  | null : JSVal
  | bool : Bool → JSVal
  | num : ℚ → JSVal
  | str : String → JSVal
  | obj : List (String × JSVal) → JSVal

/-- First-match association lookup inside a JavaScript object literal. -/
def lookupField (k : String) : List (String × JSVal) → JSVal
  | [] => JSVal.undef
  | (k2, v) :: rest => if k2 = k then v else lookupField k rest

/-- Property read `v[k]` on anything that does not throw: objects yield the
stored field (or undefined), primitives yield undefined. -/
def getField (v : JSVal) (k : String) : JSVal :=
  match v with
  | JSVal.obj fs => lookupField k fs
  | _ => JSVal.undef

/-- JavaScript truthiness, as used by `if (player.inputs.up)`. -/
def truthy : JSVal → Bool
  | JSVal.undef => false
  | JSVal.null => false
  | JSVal.bool b => b
  | JSVal.num n => decide (n ≠ 0)
  | JSVal.str s => !s.isEmpty
  | JSVal.obj _ => true

def errorUndefinedRead : String := "TypeError: cannot read properties of undefined or null"

/-- Reading `v[k]` and converting to a boolean by truthiness; reading a
property of undefined or null throws a TypeError, which in the tick loop
is an uncaught fault. -/
def readFlag (v : JSVal) (k : String) : Except String Bool :=
  match v with
  | JSVal.undef => Except.error errorUndefinedRead
  | JSVal.null => Except.error errorUndefinedRead
  | _ => Except.ok (truthy (getField v k))

-- Server constants (game-server.js).
def TICK_RATE : ℚ := 60
def MAP_SIZE : ℚ := 800
def PLAYER_SIZE : ℚ := 30
def COIN_SIZE : ℚ := 20
def PLAYER_SPEED : ℚ := 3

/-- The net y displacement accumulated from the up/down intent flags
(`if (player.inputs.up) dy -= PLAYER_SPEED; if (player.inputs.down) dy += ...`). -/
def rawDy {F : Type} [Field F] (speed : F) (up down : Bool) : F :=
  (if up then -speed else 0) + (if down then speed else 0)

/-- The net x displacement accumulated from the left/right intent flags. -/
def rawDx {F : Type} [Field F] (speed : F) (left right : Bool) : F :=
  (if left then -speed else 0) + (if right then speed else 0)

/-- Lines 360-372 of the source: accumulate the axis displacements from the
four intent flags, then normalize by dividing each axis by sqrt(2) when both
net components are nonzero (`if (dx !== 0 && dy !== 0)`). Generic in the
number field so that the same definition serves the exact-rational engine
and the real-valued magnitude analysis. -/
def displacement {F : Type} [Field F] [DecidableEq F]
    (sqrt2 speed : F) (up down left right : Bool) : F × F :=
  let dy := rawDy speed up down
  let dx := rawDx speed left right
  if dx ≠ 0 ∧ dy ≠ 0 then (dx / sqrt2, dy / sqrt2) else (dx, dy)

/-- The IEEE-754 double returned by `Math.sqrt(2)`, as an exact rational;
used by the rational-valued engine. (None of the engine-level theorems
depend on its value.) -/
def sqrt2Float : ℚ := 6369051672525773 / 4503599627370496

structure Coin where
  id : Nat
  x : ℚ
  y : ℚ
  deriving DecidableEq

structure Player where
  id : Nat
  x : ℚ
  y : ℚ
  score : Nat
  color : String
  inputs : JSVal

structure ServerState where
  players : List Player
  coins : List Coin
  nextPlayerId : Nat
  gameStarted : Bool

namespace GameServer

/-- `Math.max(0, Math.min(MAP_SIZE - PLAYER_SIZE, v))`. -/
def clampCoord (v : ℚ) : ℚ := max 0 (min (MAP_SIZE - PLAYER_SIZE) v)

/-- The movement part of `update` for one player: read the four intent
flags (the first read of an undefined or null intent throws), apply the
displacement, clamp both axes to the map bounds. -/
def movePlayer (p : Player) : Except String Player :=
  match readFlag p.inputs ("up"), readFlag p.inputs ("down"),
        readFlag p.inputs ("left"), readFlag p.inputs ("right") with
  | Except.ok up, Except.ok down, Except.ok left, Except.ok right =>
    let d := displacement sqrt2Float PLAYER_SPEED up down left right
    Except.ok { p with x := clampCoord (p.x + d.1), y := clampCoord (p.y + d.2) }
  | Except.error e, _, _, _ => Except.error e
  | _, Except.error e, _, _ => Except.error e
  | _, _, Except.error e, _ => Except.error e
  | _, _, _, Except.error e => Except.error e

/-- The value `movePlayer` produces when the stored intent is readable. -/
def movedPlayer (p : Player) : Player :=
  let d := displacement sqrt2Float PLAYER_SPEED
    (truthy (getField p.inputs ("up"))) (truthy (getField p.inputs ("down")))
    (truthy (getField p.inputs ("left"))) (truthy (getField p.inputs ("right")))
  { p with x := clampCoord (p.x + d.1), y := clampCoord (p.y + d.2) }

/-- AABB overlap test between a player's box and a coin's box
(lines 391-396 of the source). -/
def overlaps (p : Player) (c : Coin) : Bool :=
  decide (p.x < c.x + COIN_SIZE) && decide (p.x + PLAYER_SIZE > c.x) &&
  decide (p.y < c.y + COIN_SIZE) && decide (p.y + PLAYER_SIZE > c.y)

/-- `checkCoinCollisions`: every coin overlapping the player is removed and
the player's score incremented once per removed coin. The source iterates
the array backwards with `splice`, which visits each coin exactly once; the
structural recursion below does the same coin-by-coin processing. -/
def checkCoinCollisions (p : Player) : List Coin → Player × List Coin
  | [] => (p, [])
  | c :: cs =>
    if overlaps p c then
      checkCoinCollisions { p with score := p.score + 1 } cs
    else
      let r := checkCoinCollisions p cs
      (r.1, c :: r.2)

/-- The per-player body of `update`, folded over the player collection in
iteration order: move and clamp, then collide against the coins that are
still live when this player is processed. -/
def tickPlayers : List Player → List Coin → Except String (List Player × List Coin)
  | [], coins => Except.ok ([], coins)
  | p :: ps, coins =>
    match movePlayer p with
    | Except.error e => Except.error e
    | Except.ok moved =>
      match tickPlayers ps (checkCoinCollisions moved coins).2 with
      | Except.error e => Except.error e
      | Except.ok rest => Except.ok ((checkCoinCollisions moved coins).1 :: rest.1, rest.2)

/-- `GameServer.update`: one authoritative simulation step. -/
def update (s : ServerState) : Except String ServerState :=
  match tickPlayers s.players s.coins with
  | Except.error e => Except.error e
  | Except.ok r => Except.ok { s with players := r.1, coins := r.2 }

/-- `spawnCoin`: push a new coin (id from `Date.now()`, random position). -/
def spawnCoin (cid : Nat) (cx cy : ℚ) (s : ServerState) : ServerState :=
  { s with coins := s.coins ++ [{ id := cid, x := cx, y := cy }] }

def defaultInputs : JSVal :=
  JSVal.obj [(("up"), JSVal.bool false), (("down"), JSVal.bool false),
             (("left"), JSVal.bool false), (("right"), JSVal.bool false)]

/-- `handleConnection`: register a player with the next id at the supplied
random position; when the roster first reaches two players, set
`gameStarted` and immediately spawn one coin. -/
def handleConnection (px py : ℚ) (colorStr : String) (cid : Nat) (cx cy : ℚ)
    (s : ServerState) : ServerState :=
  let pid := s.nextPlayerId
  let p : Player := { id := pid, x := px, y := py, score := 0,
                      color := colorStr, inputs := defaultInputs }
  let s1 : ServerState :=
    { s with players := s.players ++ [p], nextPlayerId := pid + 1 }
  if 2 ≤ s1.players.length ∧ s1.gameStarted = false then
    spawnCoin cid cx cy { s1 with gameStarted := true }
  else s1

/-- `message.type === 'input'`. -/
def isInputMsg (data : JSVal) : Bool :=
  match getField data ("type") with
  | JSVal.str s => s == "input"
  | _ => false

/-- `GameServer.handleMessage`: a parse failure (`none`) is caught and
dropped; an unknown player id is a no-op; an input message stores
`data.inputs` wholesale — whatever value that is, including undefined
when the field is absent. -/
def handleMessage (pid : Nat) (parsed : Option JSVal) (s : ServerState) : ServerState :=
  match parsed with
  | none => s
  | some data =>
    match s.players.find? (fun p => p.id == pid) with
    | none => s
    | some _ =>
      if isInputMsg data then
        { s with players := s.players.map (fun p =>
            if p.id == pid then { p with inputs := getField data ("inputs") } else p) }
      else s

/-- Player removal on socket close. -/
def handleDisconnect (pid : Nat) (s : ServerState) : ServerState :=
  { s with players := s.players.filter (fun p => !(p.id == pid)) }

/-- Body of the 60 Hz game-loop interval: simulate only once the game has
started. (The broadcast that follows does not change server state.) -/
def gameLoopTick (s : ServerState) : Except String ServerState :=
  if s.gameStarted then update s else Except.ok s

/-- Body of the 3-second coin-spawn interval: spawn only when the game has
started and fewer than 5 coins are live. -/
def coinSpawnTick (cid : Nat) (cx cy : ℚ) (s : ServerState) : ServerState :=
  if s.gameStarted ∧ s.coins.length < 5 then spawnCoin cid cx cy s else s

end GameServer

/-- One external event hitting the server; the random draws (spawn
positions, colors) and fresh `Date.now()` coin ids appear as parameters. -/
inductive Op where
  | connect : ℚ → ℚ → String → Nat → ℚ → ℚ → Op
  | disconnect : Nat → Op
  | message : Nat → Option JSVal → Op
  | tick : Op
  | coinSpawn : Nat → ℚ → ℚ → Op

def step (s : ServerState) : Op → Except String ServerState
  | Op.connect px py c cid cx cy => Except.ok (GameServer.handleConnection px py c cid cx cy s)
  | Op.disconnect pid => Except.ok (GameServer.handleDisconnect pid s)
  | Op.message pid m => Except.ok (GameServer.handleMessage pid m s)
  | Op.tick => GameServer.gameLoopTick s
  | Op.coinSpawn cid cx cy => Except.ok (GameServer.coinSpawnTick cid cx cy s)

def runOps (s : ServerState) : List Op → Except String ServerState
  | [] => Except.ok s
  | op :: ops =>
    match step s op with
    | Except.error e => Except.error e
    | Except.ok s1 => runOps s1 ops

def initialServerState : ServerState :=
  { players := [], coins := [], nextPlayerId := 1, gameStarted := false }

/-- The coin ids an operation can introduce. -/
def opSpawnIds : Op → List Nat
  | Op.connect _ _ _ cid _ _ => [cid]
  | Op.coinSpawn cid _ _ => [cid]
  | _ => []

structure PlayerView where
  id : Nat
  x : ℚ
  y : ℚ
  score : Nat
  color : String
  deriving DecidableEq

/-- `serializePlayer`: a fresh record holding copies of the primitive
fields, so later mutation of the live player does not affect it. -/
def serializePlayer (p : Player) : PlayerView :=
  { id := p.id, x := p.x, y := p.y, score := p.score, color := p.color }

structure SnapshotMsg where
  timestamp : ℚ
  players : List PlayerView
  coins : List Coin
  deriving DecidableEq

/-- The state object built in `broadcastGameState`: timestamp, serialized
player copies, and the coins. -/
def buildSnapshot (ts : ℚ) (s : ServerState) : SnapshotMsg :=
  { timestamp := ts, players := s.players.map serializePlayer, coins := s.coins }

/-- What a client actually receives: `sendWithLatency` stringifies the
state object only when the delayed timer fires. The `players` array holds
fresh copies made at build time, but `coins` is the live `this.coins`
array, so the delivered coin sequence is the one current at delivery
time (`sAtDelivery`), not at build time (`sBuild`). -/
def deliveredStateMsg (tsBuild : ℚ) (sBuild sAtDelivery : ServerState) : SnapshotMsg :=
  { timestamp := tsBuild,
    players := sBuild.players.map serializePlayer,
    coins := sAtDelivery.coins }

-- Client (game-client.js).

def INTERPOLATION_DELAY : ℚ := 100

structure RenderState where
  players : List PlayerView
  coins : List Coin
  deriving DecidableEq

structure ClientState where
  myPlayerId : Option Nat
  serverStates : List SnapshotMsg

inductive ClientMsg where
  | init : Nat → ClientMsg
  | state : SnapshotMsg → ClientMsg

/-- Lines 107-108: keep only the snapshots with `timestamp > Date.now() - 1000`. -/
def pruneStates (now : ℚ) (states : List SnapshotMsg) : List SnapshotMsg :=
  states.filter (fun s => decide (now - 1000 < s.timestamp))

namespace GameClient

/-- `GameClient.handleMessage`: an init message records the player id; a
state message is pushed onto the end of `serverStates` and the buffer is
then pruned against `Date.now() - 1000`. -/
def handleMessage (now : ℚ) (m : ClientMsg) (c : ClientState) : ClientState :=
  match m with
  | ClientMsg.init pid => { c with myPlayerId := some pid }
  | ClientMsg.state snap =>
      { c with serverStates := pruneStates now (c.serverStates ++ [snap]) }

/-- The bracketing scan of `interpolateState`: the first adjacent pair
with `states[i].timestamp <= renderTime <= states[i+1].timestamp`. -/
def findBracket (renderTime : ℚ) : List SnapshotMsg → Option (SnapshotMsg × SnapshotMsg)
  | s1 :: s2 :: rest =>
    if s1.timestamp ≤ renderTime ∧ renderTime ≤ s2.timestamp then some (s1, s2)
    else findBracket renderTime (s2 :: rest)
  | _ => none

/-- The per-player interpolation map: players present in `before` are
matched by id in `after`; matched players get linearly interpolated
positions and the `after` score, unmatched players pass through unchanged. -/
def lerpPlayers (t : ℚ) (beforePs afterPs : List PlayerView) : List PlayerView :=
  beforePs.map (fun bp =>
    match afterPs.find? (fun p => p.id == bp.id) with
    | none => bp
    | some ap =>
      { bp with x := bp.x + (ap.x - bp.x) * t,
                y := bp.y + (ap.y - bp.y) * t,
                score := ap.score })

/-- `GameClient.interpolateState` at wall-clock `now`. -/
def interpolateState (c : ClientState) (now : ℚ) : RenderState :=
  let renderTime := now - INTERPOLATION_DELAY
  if c.serverStates.length < 2 then
    match c.serverStates with
    | s :: _ => { players := s.players, coins := s.coins }
    | [] => { players := [], coins := [] }
  else
    match findBracket renderTime c.serverStates with
    | some (before, after) =>
      let t := (renderTime - before.timestamp) / (after.timestamp - before.timestamp)
      { players := lerpPlayers t before.players after.players, coins := after.coins }
    | none =>
      match c.serverStates.getLast? with
      | some s => { players := s.players, coins := s.coins }
      | none => { players := [], coins := [] }

end GameClient

-- Concrete example states used to instantiate the theorems below.

def exPlayerA : Player :=
  { id := 1, x := 100, y := 100, score := 0, color := ("c"), inputs := GameServer.defaultInputs }

def exPlayerB : Player :=
  { id := 2, x := 400, y := 400, score := 0, color := ("d"), inputs := GameServer.defaultInputs }

def exCoin1 : Coin := { id := 11, x := 105, y := 105 }

/-- Player A after collecting one coin. -/
def exPlayerAScored : Player :=
  { id := 1, x := 100, y := 100, score := 1, color := ("c"), inputs := GameServer.defaultInputs }

/-- A started game where player A's box overlaps the single live coin. -/
def exC2s : ServerState :=
  { players := [exPlayerA], coins := [exCoin1], nextPlayerId := 3, gameStarted := true }

/-- The state `update exC2s` produces: the coin is collected. -/
def exC2s' : ServerState :=
  { players := [exPlayerAScored], coins := [], nextPlayerId := 3, gameStarted := true }

def exC1p : Player :=
  { id := 1, x := 1000, y := -5, score := 0, color := ("c"), inputs := GameServer.defaultInputs }

def exC1p' : Player :=
  { id := 1, x := 770, y := 0, score := 0, color := ("c"), inputs := GameServer.defaultInputs }

/-- A started game whose single player starts out of bounds. -/
def exC1s : ServerState :=
  { players := [exC1p], coins := [], nextPlayerId := 2, gameStarted := true }

def exC1s' : ServerState :=
  { players := [exC1p'], coins := [], nextPlayerId := 2, gameStarted := true }

/-- The wire message consisting only of a type field equal to "input",
with no `inputs` field at all. -/
def exC7msg : JSVal := JSVal.obj [(("type"), JSVal.str ("input"))]

def exC7s : ServerState :=
  { players := [exPlayerA, exPlayerB], coins := [], nextPlayerId := 3, gameStarted := true }

def exPlayerAUndef : Player :=
  { id := 1, x := 100, y := 100, score := 0, color := ("c"), inputs := JSVal.undef }

def exC7s1 : ServerState :=
  { players := [exPlayerAUndef, exPlayerB], coins := [], nextPlayerId := 3, gameStarted := true }

def exPvA0 : PlayerView := { id := 1, x := 0, y := 0, score := 0, color := ("c") }

def exPvA1 : PlayerView := { id := 1, x := 10, y := 0, score := 0, color := ("c") }

def exC5before : SnapshotMsg := { timestamp := 0, players := [exPvA0], coins := [] }

def exC5after : SnapshotMsg := { timestamp := 100, players := [exPvA1], coins := [exCoin1] }

def exC5client : ClientState :=
  { myPlayerId := none, serverStates := [exC5before, exC5after] }

def exC8a : SnapshotMsg := { timestamp := 100, players := [], coins := [] }

def exC8b : SnapshotMsg := { timestamp := 50, players := [], coins := [] }

def exC8c : SnapshotMsg := { timestamp := 150, players := [], coins := [] }

def exC8client : ClientState := { myPlayerId := none, serverStates := [exC8a] }

def exC9s : SnapshotMsg := { timestamp := 0, players := [], coins := [] }

/-- The interpolated view of player A halfway between the two snapshots. -/
def exPvA05 : PlayerView := { id := 1, x := 5, y := 0, score := 0, color := ("c") }

-- Helper lemmas about the server engine.

theorem clampCoord_bounds (v : ℚ) :
    0 ≤ GameServer.clampCoord v ∧ GameServer.clampCoord v ≤ MAP_SIZE - PLAYER_SIZE := by
  constructor
  · exact le_max_left 0 _
  · exact max_le (by norm_num [MAP_SIZE, PLAYER_SIZE]) (min_le_left _ _)

theorem movePlayer_eq_of_readable (p : Player)
    (h1 : p.inputs ≠ JSVal.undef) (h2 : p.inputs ≠ JSVal.null) :
    GameServer.movePlayer p = Except.ok (GameServer.movedPlayer p) := by
  rcases p with ⟨i, x, y, sc, col, v⟩
  cases v with
  | undef => exact absurd rfl h1
  | null => exact absurd rfl h2
  | bool b => rfl
  | num n => rfl
  | str s => rfl
  | obj fs => rfl

theorem movePlayer_err (p : Player)
    (h : p.inputs = JSVal.undef ∨ p.inputs = JSVal.null) :
    GameServer.movePlayer p = Except.error errorUndefinedRead := by
  rcases p with ⟨i, x, y, sc, col, v⟩
  rcases h with h | h <;> cases h <;> rfl

theorem movePlayer_ok_elim (p q : Player)
    (h : GameServer.movePlayer p = Except.ok q) : q = GameServer.movedPlayer p := by
  by_cases hu : p.inputs = JSVal.undef
  · rw [movePlayer_err p (Or.inl hu)] at h; simp at h
  by_cases hn : p.inputs = JSVal.null
  · rw [movePlayer_err p (Or.inr hn)] at h; simp at h
  · rw [movePlayer_eq_of_readable p hu hn] at h
    injection h with h
    exact h.symm

theorem movedPlayer_id (p : Player) : (GameServer.movedPlayer p).id = p.id := rfl

theorem movedPlayer_score (p : Player) : (GameServer.movedPlayer p).score = p.score := rfl

theorem movedPlayer_bounds (p : Player) :
    0 ≤ (GameServer.movedPlayer p).x ∧ (GameServer.movedPlayer p).x ≤ MAP_SIZE - PLAYER_SIZE
    ∧ 0 ≤ (GameServer.movedPlayer p).y ∧ (GameServer.movedPlayer p).y ≤ MAP_SIZE - PLAYER_SIZE :=
  ⟨(clampCoord_bounds _).1, (clampCoord_bounds _).2,
   (clampCoord_bounds _).1, (clampCoord_bounds _).2⟩

theorem overlaps_score_irrel (p : Player) (n : Nat) (c : Coin) :
    GameServer.overlaps { p with score := n } c = GameServer.overlaps p c := rfl

theorem checkCoinCollisions_eq (coins : List Coin) : ∀ (p : Player),
    GameServer.checkCoinCollisions p coins =
      ({ p with score := p.score + coins.countP (fun c => GameServer.overlaps p c) },
       coins.filter (fun c => !(GameServer.overlaps p c))) := by
  induction coins with
  | nil => intro p; simp [GameServer.checkCoinCollisions]
  | cons c cs ih =>
    intro p
    by_cases hc : GameServer.overlaps p c = true
    · simp only [GameServer.checkCoinCollisions, hc, if_true, ih,
        List.countP_cons, List.filter_cons, overlaps_score_irrel, hc]
      simp [hc]
      omega
    · simp only [GameServer.checkCoinCollisions, hc, if_false, ih,
        List.countP_cons, List.filter_cons]
      simp [hc, Bool.eq_false_iff.mpr hc]

theorem filter_not_countP_length (f : Coin → Bool) (l : List Coin) :
    (l.filter (fun c => !(f c))).length + l.countP f = l.length := by
  induction l with
  | nil => simp
  | cons c cs ih =>
    by_cases h : f c = true <;>
      simp [List.filter_cons, List.countP_cons, h] <;> omega

theorem forall₂_mem_right {α β : Type} {R : α → β → Prop} :
    ∀ {l1 : List α} {l2 : List β}, List.Forall₂ R l1 l2 →
      ∀ q ∈ l2, ∃ p ∈ l1, R p q := by
  intro l1 l2 h
  induction h with
  | nil => simp
  | @cons a b l1' l2' hr _ ih =>
    intro q hq
    rcases List.mem_cons.mp hq with h1 | h2
    · exact ⟨a, List.mem_cons_self a l1', h1 ▸ hr⟩
    · rcases ih q h2 with ⟨p, hp, hpq⟩
      exact ⟨p, List.mem_cons_of_mem a hp, hpq⟩

/-- Full characterization of one pass of the per-player update loop:
remaining coins form a sublist of the incoming ones, the player list keeps
ids and order with positions clamped into bounds and scores non-decreasing,
and the total score increase equals the number of coins removed. -/
theorem tickPlayers_sound : ∀ (ps : List Player) (coins : List Coin)
    (ps' : List Player) (coins' : List Coin),
    GameServer.tickPlayers ps coins = Except.ok (ps', coins') →
      coins'.Sublist coins
    ∧ List.Forall₂ (fun p q => q.id = p.id ∧ p.score ≤ q.score
        ∧ 0 ≤ q.x ∧ q.x ≤ MAP_SIZE - PLAYER_SIZE
        ∧ 0 ≤ q.y ∧ q.y ≤ MAP_SIZE - PLAYER_SIZE) ps ps'
    ∧ (ps'.map Player.score).sum + coins'.length
        = (ps.map Player.score).sum + coins.length := by
  intro ps
  induction ps with
  | nil =>
    intro coins ps' coins' h
    simp only [GameServer.tickPlayers] at h
    injection h with h
    injection h with h1 h2
    subst h1; subst h2
    exact ⟨List.Sublist.refl _, List.Forall₂.nil, by simp⟩
  | cons p ps ih =>
    intro coins ps' coins' h
    simp only [GameServer.tickPlayers] at h
    split at h
    next e hm => exact Except.noConfusion h
    next m hm =>
      split at h
      next e hr => exact Except.noConfusion h
      next rest hr =>
        injection h with h
        have hps' : (GameServer.checkCoinCollisions m coins).1 :: rest.1 = ps' :=
          congrArg Prod.fst h
        have hcs' : rest.2 = coins' := congrArg Prod.snd h
        obtain ⟨hsub, hfa, hsum⟩ := ih _ _ _ hr
        have hmoved := movePlayer_ok_elim p m hm
        have hccc := checkCoinCollisions_eq coins m
        have hcoins2 : (GameServer.checkCoinCollisions m coins).2
            = coins.filter (fun c => !(GameServer.overlaps m c)) := by rw [hccc]
        have hhead : (GameServer.checkCoinCollisions m coins).1
            = { m with score := m.score + coins.countP (fun c => GameServer.overlaps m c) } := by
          rw [hccc]
        subst hps'; subst hcs'
        refine ⟨?_, ?_, ?_⟩
        · exact (hsub.trans (by rw [hcoins2]; exact List.filter_sublist coins))
        · refine List.Forall₂.cons ?_ hfa
          rw [hhead]
          refine ⟨?_, ?_, ?_, ?_, ?_, ?_⟩
          · show m.id = p.id
            rw [hmoved]; rfl
          · show p.score ≤ m.score + _
            have : m.score = p.score := by rw [hmoved]; rfl
            omega
          · show (0:ℚ) ≤ m.x
            rw [hmoved]; exact (movedPlayer_bounds p).1
          · show m.x ≤ MAP_SIZE - PLAYER_SIZE
            rw [hmoved]; exact (movedPlayer_bounds p).2.1
          · show (0:ℚ) ≤ m.y
            rw [hmoved]; exact (movedPlayer_bounds p).2.2.1
          · show m.y ≤ MAP_SIZE - PLAYER_SIZE
            rw [hmoved]; exact (movedPlayer_bounds p).2.2.2
        · rw [hcoins2] at hsum
          have hlen := filter_not_countP_length (fun c => GameServer.overlaps m c) coins
          have hms : m.score = p.score := by rw [hmoved]; rfl
          have hproj : ({ m with score :=
              m.score + coins.countP (fun c => GameServer.overlaps m c) } : Player).score
              = m.score + coins.countP (fun c => GameServer.overlaps m c) := rfl
          rw [hhead]
          simp only [List.map_cons, List.sum_cons, hproj]
          omega

/-- C1: after every tick that completes, every registered player's position
lies within [0, mapExtent - entitySize] = [0, 770] on both axes, whatever
the pre-tick positions and intent flags were. -/
theorem C1_position_bounds (s s' : ServerState)
    (h : GameServer.update s = Except.ok s') :
    ∀ p ∈ s'.players, 0 ≤ p.x ∧ p.x ≤ MAP_SIZE - PLAYER_SIZE
      ∧ 0 ≤ p.y ∧ p.y ≤ MAP_SIZE - PLAYER_SIZE := by
  intro p hp
  simp only [GameServer.update] at h
  split at h
  next e ht => exact Except.noConfusion h
  next r ht =>
    injection h with h
    have hplayers : s'.players = r.1 := by rw [← h]
    obtain ⟨_, hfa, _⟩ := tickPlayers_sound s.players s.coins r.1 r.2 (by rw [ht])
    rw [hplayers] at hp
    rcases forall₂_mem_right hfa p hp with ⟨q, _, hq⟩
    exact ⟨hq.2.2.1, hq.2.2.2.1, hq.2.2.2.2.1, hq.2.2.2.2.2⟩

/-- C1 witness: a player starting out of bounds at (1000, -5) with no
intent flags is clamped to (770, 0) by the tick, inside the bounds. -/
theorem C1_position_bounds_witness :
    GameServer.update exC1s = Except.ok exC1s'
  ∧ (0 ≤ exC1p'.x ∧ exC1p'.x ≤ MAP_SIZE - PLAYER_SIZE
      ∧ 0 ≤ exC1p'.y ∧ exC1p'.y ≤ MAP_SIZE - PLAYER_SIZE) := by
  have hupd : GameServer.update exC1s = Except.ok exC1s' := by
    norm_num [GameServer.update, GameServer.tickPlayers, GameServer.movePlayer,
      readFlag, GameServer.defaultInputs, getField, lookupField, truthy,
      displacement, rawDx, rawDy, GameServer.clampCoord,
      GameServer.checkCoinCollisions, PLAYER_SPEED, MAP_SIZE, PLAYER_SIZE,
      sqrt2Float, exC1s, exC1s', exC1p, exC1p', min_def, max_def]
  have hmem : exC1p' ∈ exC1s'.players := by simp [exC1s']
  exact ⟨hupd, C1_position_bounds exC1s exC1s' hupd exC1p' hmem⟩

theorem update_ok_elim (s s' : ServerState) (h : GameServer.update s = Except.ok s') :
    ∃ r, GameServer.tickPlayers s.players s.coins = Except.ok r
      ∧ s' = { s with players := r.1, coins := r.2 } := by
  simp only [GameServer.update] at h
  split at h
  next e ht => exact Except.noConfusion h
  next r ht =>
    injection h with h
    exact ⟨r, ht, h.symm⟩

theorem update_coins_sublist (s s' : ServerState)
    (h : GameServer.update s = Except.ok s') : s'.coins.Sublist s.coins := by
  obtain ⟨r, ht, hs⟩ := update_ok_elim s s' h
  obtain ⟨hsub, _, _⟩ := tickPlayers_sound s.players s.coins r.1 r.2 (by rw [ht])
  rw [hs]
  exact hsub

theorem handleMessage_coins (pid : Nat) (m : Option JSVal) (s : ServerState) :
    (GameServer.handleMessage pid m s).coins = s.coins := by
  simp only [GameServer.handleMessage]
  split
  · rfl
  · split
    · rfl
    · split <;> rfl

theorem step_coinId (s : ServerState) (op : Op) (s1 : ServerState)
    (h : step s op = Except.ok s1) (cid : Nat)
    (h1 : cid ∉ s.coins.map Coin.id) (h2 : cid ∉ opSpawnIds op) :
    cid ∉ s1.coins.map Coin.id := by
  cases op with
  | connect px py c cid2 cx cy =>
    simp only [step] at h
    injection h with h
    subst h
    simp only [opSpawnIds, List.mem_singleton] at h2
    simp only [GameServer.handleConnection]
    split
    · simp only [GameServer.spawnCoin, List.map_append, List.mem_append,
        List.map_cons, List.map_nil, List.mem_singleton]
      rintro (hc | hc)
      · exact h1 hc
      · exact h2 hc
    · exact h1
  | disconnect pid =>
    simp only [step] at h
    injection h with h
    subst h
    exact h1
  | message pid m =>
    simp only [step] at h
    injection h with h
    subst h
    rw [show (GameServer.handleMessage pid m s).coins.map Coin.id
        = s.coins.map Coin.id from by rw [handleMessage_coins]]
    exact h1
  | tick =>
    simp only [step, GameServer.gameLoopTick] at h
    split at h
    · intro hc
      exact h1 (((update_coins_sublist s s1 h).map Coin.id).subset hc)
    · injection h with h
      subst h
      exact h1
  | coinSpawn cid2 cx cy =>
    simp only [step] at h
    injection h with h
    subst h
    simp only [opSpawnIds, List.mem_singleton] at h2
    simp only [GameServer.coinSpawnTick]
    split
    · simp only [GameServer.spawnCoin, List.map_append, List.mem_append,
        List.map_cons, List.map_nil, List.mem_singleton]
      rintro (hc | hc)
      · exact h1 hc
      · exact h2 hc
    · exact h1

/-- Along any successful run, a coin id absent from the live coin list
stays absent as long as no operation spawns that id again. -/
theorem runOps_coinId (cid : Nat) : ∀ (ops : List Op) (s s' : ServerState),
    runOps s ops = Except.ok s' → cid ∉ s.coins.map Coin.id →
    (∀ op ∈ ops, cid ∉ opSpawnIds op) → cid ∉ s'.coins.map Coin.id := by
  intro ops
  induction ops with
  | nil =>
    intro s s' h h1 _
    simp only [runOps] at h
    injection h with h
    exact h ▸ h1
  | cons op ops ih =>
    intro s s' h h1 h2
    simp only [runOps] at h
    split at h
    next e hs => exact Except.noConfusion h
    next s1 hs =>
      exact ih s1 s' h
        (step_coinId s op s1 hs cid h1 (h2 op (List.mem_cons_self op ops)))
        (fun o ho => h2 o (List.mem_cons_of_mem op ho))

theorem tickPlayers_cons_ok (p : Player) (ps : List Player) (coins : List Coin)
    (m : Player) (hm : GameServer.movePlayer p = Except.ok m) :
    GameServer.tickPlayers (p :: ps) coins =
      match GameServer.tickPlayers ps (GameServer.checkCoinCollisions m coins).2 with
      | Except.error e => Except.error e
      | Except.ok rest =>
          Except.ok ((GameServer.checkCoinCollisions m coins).1 :: rest.1, rest.2) := by
  simp only [GameServer.tickPlayers, hm]

/-- Evaluating the tick on the concrete overlap scenario. -/
theorem exC2_update : GameServer.update exC2s = Except.ok exC2s' := by
  norm_num [GameServer.update, GameServer.tickPlayers, GameServer.movePlayer,
    readFlag, GameServer.defaultInputs, getField, lookupField, truthy,
    displacement, rawDx, rawDy, GameServer.clampCoord,
    GameServer.checkCoinCollisions, GameServer.overlaps,
    PLAYER_SPEED, MAP_SIZE, PLAYER_SIZE, COIN_SIZE, sqrt2Float,
    exC2s, exC2s', exPlayerA, exPlayerAScored, exCoin1, min_def, max_def]

/-- C2: a collision event (overlap of a player box with a live coin during
the tick) increments that player's score by exactly 1 per collected coin and
removes the coin; scores never decrease and the total score increase equals
the number of coins removed, so each removed coin is credited exactly once;
the first-processed player collects a contested coin and the coin is absent
from the post-tick world; and once a coin id is out of the world it never
appears in any later snapshot unless an operation spawns that id afresh. -/
theorem C2_collision_scoring (s s' : ServerState)
    (h : GameServer.update s = Except.ok s') :
    s'.coins.Sublist s.coins
  ∧ List.Forall₂ (fun p q => q.id = p.id ∧ p.score ≤ q.score) s.players s'.players
  ∧ (s'.players.map Player.score).sum + s'.coins.length
      = (s.players.map Player.score).sum + s.coins.length
  ∧ (∀ p ps m, s.players = p :: ps → GameServer.movePlayer p = Except.ok m →
      ∃ tl, s'.players
          = { m with score := m.score + s.coins.countP (fun c => GameServer.overlaps m c) } :: tl
        ∧ ∀ c ∈ s.coins, GameServer.overlaps m c = true → c ∉ s'.coins)
  ∧ (∀ cid, cid ∉ s'.coins.map Coin.id →
      ∀ ops s'' ts, runOps s' ops = Except.ok s'' →
        (∀ op ∈ ops, cid ∉ opSpawnIds op) →
        cid ∉ (buildSnapshot ts s'').coins.map Coin.id) := by
  obtain ⟨r, ht, hs⟩ := update_ok_elim s s' h
  obtain ⟨hsub, hfa, hsum⟩ := tickPlayers_sound s.players s.coins r.1 r.2 (by rw [ht])
  have hplayers : s'.players = r.1 := by rw [hs]
  have hcoins : s'.coins = r.2 := by rw [hs]
  refine ⟨?_, ?_, ?_, ?_, ?_⟩
  · rw [hcoins]; exact hsub
  · rw [hplayers]
    exact hfa.imp (fun a b hpq => ⟨hpq.1, hpq.2.1⟩)
  · rw [hplayers, hcoins]; exact hsum
  · intro p ps m hpps hm
    rw [hpps] at ht
    rw [tickPlayers_cons_ok p ps s.coins m hm] at ht
    split at ht
    next e hr => exact Except.noConfusion ht
    next rest hr =>
      injection ht with ht
      have h1 : (GameServer.checkCoinCollisions m s.coins).1 :: rest.1 = r.1 := by
        rw [← ht]
      have h2 : rest.2 = r.2 := by rw [← ht]
      have hccc := checkCoinCollisions_eq s.coins m
      refine ⟨rest.1, ?_, ?_⟩
      · rw [hplayers, ← h1, hccc]
      · intro c hc hov
        obtain ⟨hsub2, _, _⟩ := tickPlayers_sound ps
          (GameServer.checkCoinCollisions m s.coins).2 rest.1 rest.2 (by rw [hr])
        have hnotin2 : c ∉ (GameServer.checkCoinCollisions m s.coins).2 := by
          rw [hccc]
          simp only [List.mem_filter]
          rintro ⟨_, hbad⟩
          rw [hov] at hbad
          simp at hbad
        rw [hcoins, ← h2]
        exact fun hmem => hnotin2 (hsub2.subset hmem)
  · intro cid hcid ops s'' ts hrun hops
    have : cid ∉ s''.coins.map Coin.id := runOps_coinId cid ops s' s'' hrun hcid hops
    simpa [buildSnapshot] using this

/-- C2 witness: a started game with one player overlapping the single live
coin; the tick awards exactly one point and removes the coin, so the total
score plus live-coin count is conserved. -/
theorem C2_collision_scoring_witness :
    GameServer.update exC2s = Except.ok exC2s'
  ∧ (exC2s'.players.map Player.score).sum + exC2s'.coins.length
      = (exC2s.players.map Player.score).sum + exC2s.coins.length :=
  ⟨exC2_update, (C2_collision_scoring exC2s exC2s' exC2_update).2.2.1⟩

/-- C3: the snapshot is not an immutable point-in-time capture. The player
records are copied at build time (first conjunct, which holds in general),
but the `coins` field of the state object aliases the live coin array and
`sendWithLatency` stringifies only when the delayed timer fires: a tick that
removes a coin between build and delivery changes the delivered payload,
so the delivered message differs from the snapshot as built. -/
theorem C3_snapshot_not_immutable :
    (∀ (ts : ℚ) (sb sa : ServerState),
        (deliveredStateMsg ts sb sa).players = (buildSnapshot ts sb).players)
  ∧ runOps exC2s [Op.tick] = Except.ok exC2s'
  ∧ (buildSnapshot 500 exC2s).coins = [exCoin1]
  ∧ (deliveredStateMsg 500 exC2s exC2s').coins = []
  ∧ deliveredStateMsg 500 exC2s exC2s' ≠ buildSnapshot 500 exC2s := by
  have hloop : GameServer.gameLoopTick exC2s = Except.ok exC2s' := by
    have hg : exC2s.gameStarted = true := rfl
    simp only [GameServer.gameLoopTick, hg, if_true]
    exact exC2_update
  refine ⟨fun ts sb sa => rfl, ?_, rfl, rfl, ?_⟩
  · simp only [runOps, step, hloop]
  · intro hEq
    have hc := congrArg SnapshotMsg.coins hEq
    simp only [deliveredStateMsg, buildSnapshot] at hc
    have : exC2s'.coins = exC2s.coins := hc
    simp [exC2s, exC2s'] at this

theorem sq_div_sqrt_two (a : ℝ) (h : a ^ 2 = 9) : (a / Real.sqrt 2) ^ 2 = 9 / 2 := by
  rw [div_pow, Real.sq_sqrt (by norm_num : (0:ℝ) ≤ 2), h]

theorem sqrt_nine_halves_sum : Real.sqrt ((9:ℝ) / 2 + 9 / 2) = 3 := by
  rw [show (9:ℝ) / 2 + 9 / 2 = 3 ^ 2 by norm_num,
    Real.sqrt_sq (by norm_num : (0:ℝ) ≤ 3)]

theorem sqrt_nine : Real.sqrt (9:ℝ) = 3 := by
  rw [show (9:ℝ) = 3 ^ 2 by norm_num, Real.sqrt_sq (by norm_num : (0:ℝ) ≤ 3)]

theorem rawDx_ne_sq (left right : Bool) (h : rawDx (3:ℝ) left right ≠ 0) :
    (rawDx (3:ℝ) left right) ^ 2 = 9 := by
  cases left <;> cases right <;> norm_num [rawDx] at h ⊢

theorem rawDy_ne_sq (up down : Bool) (h : rawDy (3:ℝ) up down ≠ 0) :
    (rawDy (3:ℝ) up down) ^ 2 = 9 := by
  cases up <;> cases down <;> norm_num [rawDy] at h ⊢

/-- C4 counterexample: with all four intent flags active, both an x flag and
a y flag are active, yet the net axis components cancel to 0, so no division
by sqrt(2) is applied and the per-tick displacement magnitude is 0, not the
speed constant 3. -/
theorem C4_counterexample :
    displacement (Real.sqrt 2) (3:ℝ) true true true true = (0, 0)
  ∧ Real.sqrt ((displacement (Real.sqrt 2) (3:ℝ) true true true true).1 ^ 2
      + (displacement (Real.sqrt 2) (3:ℝ) true true true true).2 ^ 2) = 0
  ∧ (0:ℝ) ≠ 3 := by
  have hd : displacement (Real.sqrt 2) (3:ℝ) true true true true = (0, 0) := by
    norm_num [displacement, rawDx, rawDy]
  refine ⟨hd, ?_, by norm_num⟩
  rw [hd]
  norm_num

/-- C4 amended: when the NET displacement components on both axes are
nonzero, each component is divided by sqrt(2) and the per-tick displacement
magnitude equals the speed constant 3 exactly; when exactly one net
component is nonzero the magnitude is exactly 3 as well. (The claim's
trigger "an x flag and a y flag active" is wrong when opposing flags on an
axis cancel; the code tests the net components.) -/
theorem C4_diagonal_normalization (up down left right : Bool) :
    (rawDx (3:ℝ) left right ≠ 0 → rawDy (3:ℝ) up down ≠ 0 →
      displacement (Real.sqrt 2) (3:ℝ) up down left right
        = (rawDx (3:ℝ) left right / Real.sqrt 2, rawDy (3:ℝ) up down / Real.sqrt 2)
      ∧ Real.sqrt ((displacement (Real.sqrt 2) (3:ℝ) up down left right).1 ^ 2
          + (displacement (Real.sqrt 2) (3:ℝ) up down left right).2 ^ 2) = 3)
  ∧ (rawDx (3:ℝ) left right ≠ 0 → rawDy (3:ℝ) up down = 0 →
      Real.sqrt ((displacement (Real.sqrt 2) (3:ℝ) up down left right).1 ^ 2
        + (displacement (Real.sqrt 2) (3:ℝ) up down left right).2 ^ 2) = 3)
  ∧ (rawDx (3:ℝ) left right = 0 → rawDy (3:ℝ) up down ≠ 0 →
      Real.sqrt ((displacement (Real.sqrt 2) (3:ℝ) up down left right).1 ^ 2
        + (displacement (Real.sqrt 2) (3:ℝ) up down left right).2 ^ 2) = 3) := by
  refine ⟨?_, ?_, ?_⟩
  · intro h1 h2
    have hd : displacement (Real.sqrt 2) (3:ℝ) up down left right
        = (rawDx (3:ℝ) left right / Real.sqrt 2, rawDy (3:ℝ) up down / Real.sqrt 2) := by
      simp only [displacement]
      rw [if_pos ⟨h1, h2⟩]
    refine ⟨hd, ?_⟩
    rw [hd]
    simp only
    rw [sq_div_sqrt_two _ (rawDx_ne_sq left right h1),
      sq_div_sqrt_two _ (rawDy_ne_sq up down h2), sqrt_nine_halves_sum]
  · intro h1 h2
    have hd : displacement (Real.sqrt 2) (3:ℝ) up down left right
        = (rawDx (3:ℝ) left right, rawDy (3:ℝ) up down) := by
      simp only [displacement]
      rw [if_neg]
      rintro ⟨_, hdy⟩
      exact hdy h2
    rw [hd]
    simp only
    rw [h2, rawDx_ne_sq left right h1]
    norm_num [sqrt_nine]
  · intro h1 h2
    have hd : displacement (Real.sqrt 2) (3:ℝ) up down left right
        = (rawDx (3:ℝ) left right, rawDy (3:ℝ) up down) := by
      simp only [displacement]
      rw [if_neg]
      rintro ⟨hdx, _⟩
      exact hdx h1
    rw [hd]
    simp only
    rw [h1, rawDy_ne_sq up down h2]
    norm_num [sqrt_nine]

/-- C4 witness: up together with left gives nonzero net components on both
axes; the normalized displacement magnitude is exactly the speed constant. -/
theorem C4_diagonal_normalization_witness :
    Real.sqrt ((displacement (Real.sqrt 2) (3:ℝ) true false true false).1 ^ 2
      + (displacement (Real.sqrt 2) (3:ℝ) true false true false).2 ^ 2) = 3 :=
  ((C4_diagonal_normalization true false true false).1
    (by norm_num [rawDx]) (by norm_num [rawDy])).2

-- Client-side lemmas.

theorem findBracket_length (rt : ℚ) : ∀ (l : List SnapshotMsg) (b a : SnapshotMsg),
    GameClient.findBracket rt l = some (b, a) → 2 ≤ l.length := by
  intro l
  induction l with
  | nil => intro b a h; simp [GameClient.findBracket] at h
  | cons s1 rest ih =>
    cases rest with
    | nil => intro b a h; simp [GameClient.findBracket] at h
    | cons s2 rest2 =>
      intro b a _
      simp only [List.length_cons]
      omega

theorem findBracket_bounds (rt : ℚ) : ∀ (l : List SnapshotMsg) (b a : SnapshotMsg),
    GameClient.findBracket rt l = some (b, a) →
    b.timestamp ≤ rt ∧ rt ≤ a.timestamp := by
  intro l
  induction l with
  | nil => intro b a h; simp [GameClient.findBracket] at h
  | cons s1 rest ih =>
    cases rest with
    | nil => intro b a h; simp [GameClient.findBracket] at h
    | cons s2 rest2 =>
      intro b a h
      simp only [GameClient.findBracket] at h
      split at h
      next hc =>
        injection h with h
        injection h with h1 h2
        subst h1; subst h2
        exact hc
      next hc => exact ih b a h

theorem interpolateState_bracket (c : ClientState) (now : ℚ) (b a : SnapshotMsg)
    (hfind : GameClient.findBracket (now - INTERPOLATION_DELAY) c.serverStates
      = some (b, a)) :
    GameClient.interpolateState c now =
      { players := GameClient.lerpPlayers
          ((now - INTERPOLATION_DELAY - b.timestamp) / (a.timestamp - b.timestamp))
          b.players a.players,
        coins := a.coins } := by
  have hlen := findBracket_length (now - INTERPOLATION_DELAY) c.serverStates b a hfind
  simp only [GameClient.interpolateState]
  rw [if_neg (by omega)]
  rw [hfind]

theorem lerpPlayers_mem (t : ℚ) (bps aps : List PlayerView) (rp : PlayerView)
    (h : rp ∈ GameClient.lerpPlayers t bps aps) :
    ∃ bp ∈ bps,
      (aps.find? (fun p => p.id == bp.id) = none ∧ rp = bp)
    ∨ ∃ ap, aps.find? (fun p => p.id == bp.id) = some ap
        ∧ rp = { bp with x := bp.x + (ap.x - bp.x) * t,
                         y := bp.y + (ap.y - bp.y) * t, score := ap.score } := by
  obtain ⟨bp, hbp, hf⟩ := List.mem_map.mp h
  refine ⟨bp, hbp, ?_⟩
  cases hfind2 : aps.find? (fun p => p.id == bp.id) with
  | none =>
    left
    simp only [hfind2] at hf
    exact ⟨rfl, hf.symm⟩
  | some ap =>
    right
    simp only [hfind2] at hf
    exact ⟨ap, rfl, hf.symm⟩

/-- C5: when the scan selects a bracketing pair (before, after) with
distinct timestamps, the sampled state takes coins wholesale from after;
each player of before that is matched by id in after is rendered at the
linear interpolation of the two positions with after's score, and each
unmatched player of before is rendered unchanged. -/
theorem C5_interpolation_sample (c : ClientState) (now : ℚ) (b a : SnapshotMsg)
    (hfind : GameClient.findBracket (now - INTERPOLATION_DELAY) c.serverStates
      = some (b, a))
    (_hts : b.timestamp < a.timestamp) :
    (GameClient.interpolateState c now).coins = a.coins
  ∧ (GameClient.interpolateState c now).players
      = GameClient.lerpPlayers
          ((now - INTERPOLATION_DELAY - b.timestamp) / (a.timestamp - b.timestamp))
          b.players a.players
  ∧ ∀ bp ∈ b.players,
      (∀ ap, a.players.find? (fun p => p.id == bp.id) = some ap →
        ({ bp with
            x := bp.x + (ap.x - bp.x)
              * ((now - INTERPOLATION_DELAY - b.timestamp) / (a.timestamp - b.timestamp)),
            y := bp.y + (ap.y - bp.y)
              * ((now - INTERPOLATION_DELAY - b.timestamp) / (a.timestamp - b.timestamp)),
            score := ap.score } : PlayerView) ∈ (GameClient.interpolateState c now).players)
    ∧ (a.players.find? (fun p => p.id == bp.id) = none →
        bp ∈ (GameClient.interpolateState c now).players) := by
  have hI := interpolateState_bracket c now b a hfind
  refine ⟨by rw [hI], by rw [hI], ?_⟩
  intro bp hbp
  constructor
  · intro ap hap
    rw [hI]
    refine List.mem_map.mpr ⟨bp, hbp, ?_⟩
    simp only [hap]
  · intro hnone
    rw [hI]
    refine List.mem_map.mpr ⟨bp, hbp, ?_⟩
    simp only [hnone]

/-- C5 witness: the spec's concrete example — snapshots at t=0 with player
position (0,0) and t=100 with position (10,0), sampled at render time 50
(now = 150 with the 100 ms delay), yields position (5,0). -/
theorem C5_interpolation_sample_witness :
    (GameClient.interpolateState exC5client 150).coins = exC5after.coins
  ∧ (GameClient.interpolateState exC5client 150).players = [exPvA05] := by
  have hfind : GameClient.findBracket ((150:ℚ) - INTERPOLATION_DELAY)
      exC5client.serverStates = some (exC5before, exC5after) := by
    norm_num [GameClient.findBracket, INTERPOLATION_DELAY, exC5client,
      exC5before, exC5after]
  have hts : exC5before.timestamp < exC5after.timestamp := by
    norm_num [exC5before, exC5after]
  have h := C5_interpolation_sample exC5client 150 exC5before exC5after hfind hts
  refine ⟨h.1, ?_⟩
  rw [h.2.1]
  norm_num [GameClient.lerpPlayers, exC5before, exC5after, exPvA0, exPvA1,
    exPvA05, INTERPOLATION_DELAY, List.find?]

theorem lerp_between (x0 x1 t : ℚ) (h0 : 0 ≤ t) (h1 : t ≤ 1) :
    min x0 x1 ≤ x0 + (x1 - x0) * t ∧ x0 + (x1 - x0) * t ≤ max x0 x1 := by
  rcases le_total x0 x1 with hle | hle
  · rw [min_eq_left hle, max_eq_right hle]
    constructor <;> nlinarith
  · rw [min_eq_right hle, max_eq_left hle]
    constructor <;> nlinarith

/-- C10: the sampler never extrapolates. Whenever the scan selects a
bracketing pair with strictly increasing timestamps, the interpolation
factor lies in [0, 1], and every rendered player either equals its before
record (no id match in after) or has both coordinates between the
corresponding before and after coordinates. -/
theorem C10_no_extrapolation (c : ClientState) (now : ℚ) (b a : SnapshotMsg)
    (hfind : GameClient.findBracket (now - INTERPOLATION_DELAY) c.serverStates
      = some (b, a))
    (hts : b.timestamp < a.timestamp) :
    0 ≤ (now - INTERPOLATION_DELAY - b.timestamp) / (a.timestamp - b.timestamp)
  ∧ (now - INTERPOLATION_DELAY - b.timestamp) / (a.timestamp - b.timestamp) ≤ 1
  ∧ ∀ rp ∈ (GameClient.interpolateState c now).players, ∃ bp ∈ b.players,
      (a.players.find? (fun p => p.id == bp.id) = none ∧ rp = bp)
    ∨ ∃ ap, a.players.find? (fun p => p.id == bp.id) = some ap
        ∧ rp.id = bp.id
        ∧ min bp.x ap.x ≤ rp.x ∧ rp.x ≤ max bp.x ap.x
        ∧ min bp.y ap.y ≤ rp.y ∧ rp.y ≤ max bp.y ap.y := by
  obtain ⟨hble, hale⟩ :=
    findBracket_bounds (now - INTERPOLATION_DELAY) c.serverStates b a hfind
  have hpos : 0 < a.timestamp - b.timestamp := by linarith
  have ht0 : 0 ≤ (now - INTERPOLATION_DELAY - b.timestamp) / (a.timestamp - b.timestamp) :=
    div_nonneg (by linarith) (le_of_lt hpos)
  have ht1 : (now - INTERPOLATION_DELAY - b.timestamp) / (a.timestamp - b.timestamp) ≤ 1 := by
    rw [div_le_one hpos]
    linarith
  refine ⟨ht0, ht1, ?_⟩
  intro rp hrp
  rw [interpolateState_bracket c now b a hfind] at hrp
  obtain ⟨bp, hbp, hcases⟩ := lerpPlayers_mem _ b.players a.players rp hrp
  refine ⟨bp, hbp, ?_⟩
  rcases hcases with ⟨hn, he⟩ | ⟨ap, hs, he⟩
  · exact Or.inl ⟨hn, he⟩
  · right
    refine ⟨ap, hs, ?_, ?_, ?_, ?_, ?_⟩
    · rw [he]
    · rw [he]
      exact (lerp_between bp.x ap.x _ ht0 ht1).1
    · rw [he]
      exact (lerp_between bp.x ap.x _ ht0 ht1).2
    · rw [he]
      exact (lerp_between bp.y ap.y _ ht0 ht1).1
    · rw [he]
      exact (lerp_between bp.y ap.y _ ht0 ht1).2

/-- C10 witness: on the concrete two-snapshot buffer the interpolation
factor is 1/2, inside [0, 1]. -/
theorem C10_no_extrapolation_witness :
    0 ≤ ((150:ℚ) - INTERPOLATION_DELAY - exC5before.timestamp)
        / (exC5after.timestamp - exC5before.timestamp)
  ∧ ((150:ℚ) - INTERPOLATION_DELAY - exC5before.timestamp)
        / (exC5after.timestamp - exC5before.timestamp) ≤ 1 := by
  have hfind : GameClient.findBracket ((150:ℚ) - INTERPOLATION_DELAY)
      exC5client.serverStates = some (exC5before, exC5after) := by
    norm_num [GameClient.findBracket, INTERPOLATION_DELAY, exC5client,
      exC5before, exC5after]
  have h := C10_no_extrapolation exC5client 150 exC5before exC5after hfind
    (by norm_num [exC5before, exC5after])
  exact ⟨h.1, h.2.1⟩

/-- C8 counterexample: ingesting an out-of-order snapshot (timestamp 50
after timestamp 100) leaves the buffer unsorted — the arrival is appended
at the end, not inserted at its sorted position — and ingesting a snapshot
whose timestamp equals a buffered one yields two entries, not an
overwrite. -/
theorem C8_counterexample :
    (GameClient.handleMessage 100 (ClientMsg.state exC8b) exC8client).serverStates
      = [exC8a, exC8b]
  ∧ ¬ List.Pairwise (fun s1 s2 => s1.timestamp ≤ s2.timestamp) [exC8a, exC8b]
  ∧ (GameClient.handleMessage 100 (ClientMsg.state exC8a) exC8client).serverStates
      = [exC8a, exC8a] := by
  refine ⟨?_, ?_, ?_⟩
  · norm_num [GameClient.handleMessage, pruneStates, List.filter,
      exC8client, exC8a, exC8b]
  · intro h
    have := (List.pairwise_cons.mp h).1 exC8b (by simp)
    norm_num [exC8a, exC8b] at this
  · norm_num [GameClient.handleMessage, pruneStates, List.filter, exC8client, exC8a]

/-- C8 amended: Ingest appends the arriving snapshot at the end of the
buffer and then prunes; it performs no sorted insertion and no overwrite on
duplicate timestamps. The buffer is sorted after an ingest provided it was
sorted and the arrival's timestamp is at least every buffered timestamp
(which holds when arrivals come in timestamp order, as the constant-latency
FIFO channel delivers them). -/
theorem C8_ingest_append (now : ℚ) (c : ClientState) (snap : SnapshotMsg)
    (hsort : List.Pairwise (fun s1 s2 => s1.timestamp ≤ s2.timestamp) c.serverStates)
    (hle : ∀ s ∈ c.serverStates, s.timestamp ≤ snap.timestamp) :
    (GameClient.handleMessage now (ClientMsg.state snap) c).serverStates
      = pruneStates now (c.serverStates ++ [snap])
  ∧ List.Pairwise (fun s1 s2 => s1.timestamp ≤ s2.timestamp)
      (GameClient.handleMessage now (ClientMsg.state snap) c).serverStates := by
  have heq : (GameClient.handleMessage now (ClientMsg.state snap) c).serverStates
      = pruneStates now (c.serverStates ++ [snap]) := rfl
  refine ⟨heq, ?_⟩
  rw [heq]
  have hp : List.Pairwise (fun s1 s2 => s1.timestamp ≤ s2.timestamp)
      (c.serverStates ++ [snap]) := by
    rw [List.pairwise_append]
    refine ⟨hsort, List.pairwise_singleton _ _, ?_⟩
    intro x hx y hy
    rw [List.mem_singleton.mp hy]
    exact hle x hx
  exact hp.sublist (List.filter_sublist _)

/-- C8 witness: ingesting a newer snapshot (timestamp 150) into the sorted
one-element buffer keeps the buffer sorted. -/
theorem C8_ingest_append_witness :
    (GameClient.handleMessage 100 (ClientMsg.state exC8c) exC8client).serverStates
      = pruneStates 100 (exC8client.serverStates ++ [exC8c])
  ∧ List.Pairwise (fun s1 s2 => s1.timestamp ≤ s2.timestamp)
      (GameClient.handleMessage 100 (ClientMsg.state exC8c) exC8client).serverStates := by
  apply C8_ingest_append
  · simp [exC8client]
  · intro s hs
    simp only [exC8client, List.mem_singleton] at hs
    rw [hs]
    norm_num [exC8a, exC8c]

/-- C9 counterexample: a snapshot whose timestamp equals now - 1000 exactly
is REMOVED by the prune (the code keeps only timestamps strictly greater
than the cutoff), while the claim says it is retained. -/
theorem C9_counterexample :
    exC9s.timestamp = (1000:ℚ) - 1000 ∧ pruneStates 1000 [exC9s] = [] := by
  constructor
  · norm_num [exC9s]
  · norm_num [pruneStates, List.filter, exC9s]

/-- C9 amended: pruning with window 1000 removes exactly the snapshots with
timestamp ≤ now - 1000 and retains exactly those with timestamp > now - 1000
(strict at the boundary), independently of buffer order; and it runs on
every state-message ingestion. -/
theorem C9_prune_semantics (now : ℚ) (states : List SnapshotMsg) :
    (∀ s, s ∈ pruneStates now states ↔ s ∈ states ∧ now - 1000 < s.timestamp)
  ∧ (∀ states2, states.Perm states2 →
      (pruneStates now states).Perm (pruneStates now states2))
  ∧ (∀ (c : ClientState) (snap : SnapshotMsg),
      (GameClient.handleMessage now (ClientMsg.state snap) c).serverStates
        = pruneStates now (c.serverStates ++ [snap])) := by
  refine ⟨?_, ?_, fun c snap => rfl⟩
  · intro s
    simp [pruneStates, List.mem_filter]
  · intro states2 hperm
    exact hperm.filter _

/-- C9 witness: membership in a concrete pruned buffer matches the strict
cutoff test, and pruning two permuted buffers yields permuted results. -/
theorem C9_prune_semantics_witness :
    (exC9s ∈ pruneStates 2000 [exC9s]
      ↔ exC9s ∈ [exC9s] ∧ (2000:ℚ) - 1000 < exC9s.timestamp)
  ∧ (pruneStates 0 [exC8a, exC8b]).Perm (pruneStates 0 [exC8b, exC8a]) :=
  ⟨(C9_prune_semantics 2000 [exC9s]).1 exC9s,
   (C9_prune_semantics 0 [exC8a, exC8b]).2.1 [exC8b, exC8a]
     (List.Perm.swap exC8b exC8a [])⟩

-- Lemmas about the started flag and roster size along traces.

theorem handleMessage_players_length (pid : Nat) (m : Option JSVal) (s : ServerState) :
    (GameServer.handleMessage pid m s).players.length = s.players.length := by
  simp only [GameServer.handleMessage]
  split
  · rfl
  · split
    · rfl
    · split
      · simp
      · rfl

theorem handleMessage_gameStarted (pid : Nat) (m : Option JSVal) (s : ServerState) :
    (GameServer.handleMessage pid m s).gameStarted = s.gameStarted := by
  simp only [GameServer.handleMessage]
  split
  · rfl
  · split
    · rfl
    · split <;> rfl

theorem update_players_length (s s' : ServerState)
    (h : GameServer.update s = Except.ok s') :
    s'.players.length = s.players.length := by
  obtain ⟨r, ht, hs⟩ := update_ok_elim s s' h
  obtain ⟨_, hfa, _⟩ := tickPlayers_sound s.players s.coins r.1 r.2 (by rw [ht])
  rw [hs]
  exact (List.Forall₂.length_eq hfa).symm

theorem update_gameStarted (s s' : ServerState)
    (h : GameServer.update s = Except.ok s') : s'.gameStarted = s.gameStarted := by
  obtain ⟨r, _, hs⟩ := update_ok_elim s s' h
  rw [hs]

theorem step_started_mono (s : ServerState) (op : Op) (s1 : ServerState)
    (h : step s op = Except.ok s1) (hs : s.gameStarted = true) :
    s1.gameStarted = true := by
  cases op with
  | connect px py c cid cx cy =>
    simp only [step] at h
    injection h with h
    subst h
    simp only [GameServer.handleConnection]
    split
    · rfl
    · exact hs
  | disconnect pid =>
    simp only [step] at h
    injection h with h
    subst h
    exact hs
  | message pid m =>
    simp only [step] at h
    injection h with h
    subst h
    rw [handleMessage_gameStarted]
    exact hs
  | tick =>
    simp only [step, GameServer.gameLoopTick] at h
    rw [if_pos hs] at h
    rw [update_gameStarted s s1 h]
    exact hs
  | coinSpawn cid cx cy =>
    simp only [step] at h
    injection h with h
    subst h
    simp only [GameServer.coinSpawnTick]
    split
    · exact hs
    · exact hs

theorem step_two_inv (s : ServerState) (op : Op) (s1 : ServerState)
    (h : step s op = Except.ok s1)
    (hinv : 2 ≤ s.players.length → s.gameStarted = true) :
    2 ≤ s1.players.length → s1.gameStarted = true := by
  cases op with
  | connect px py c cid cx cy =>
    simp only [step] at h
    injection h with h
    subst h
    simp only [GameServer.handleConnection]
    split
    next hcond => intro _; rfl
    next hcond =>
      intro hlen
      simp only [List.length_append, List.length_cons, List.length_nil] at hlen
      rcases Decidable.not_and_iff_or_not.mp hcond with hc | hc
      · exact absurd (by simp [List.length_append]; omega) hc
      · simp only [Bool.not_eq_false] at hc
        exact hc
  | disconnect pid =>
    simp only [step] at h
    injection h with h
    subst h
    intro hlen
    simp only [GameServer.handleDisconnect] at hlen ⊢
    exact hinv (le_trans hlen (List.length_filter_le _ _))
  | message pid m =>
    simp only [step] at h
    injection h with h
    subst h
    intro hlen
    rw [handleMessage_players_length] at hlen
    rw [handleMessage_gameStarted]
    exact hinv hlen
  | tick =>
    simp only [step, GameServer.gameLoopTick] at h
    split at h
    next hg =>
      intro _
      rw [update_gameStarted s s1 h]
      exact hg
    next hg =>
      injection h with h
      subst h
      exact hinv
  | coinSpawn cid cx cy =>
    simp only [step] at h
    injection h with h
    subst h
    simp only [GameServer.coinSpawnTick]
    split
    next hc => intro _; exact hc.1
    next hc => exact hinv

theorem runOps_two_inv : ∀ (ops : List Op) (s s' : ServerState),
    runOps s ops = Except.ok s' →
    (2 ≤ s.players.length → s.gameStarted = true) →
    (2 ≤ s'.players.length → s'.gameStarted = true) := by
  intro ops
  induction ops with
  | nil =>
    intro s s' h hinv
    simp only [runOps] at h
    injection h with h
    exact h ▸ hinv
  | cons op ops ih =>
    intro s s' h hinv
    simp only [runOps] at h
    split at h
    next e hs => exact Except.noConfusion h
    next s1 hs => exact ih s1 s' h (step_two_inv s op s1 hs hinv)

theorem step_flip (s : ServerState) (op : Op) (s1 : ServerState)
    (h : step s op = Except.ok s1) (hf : s.gameStarted = false)
    (ht : s1.gameStarted = true) : 2 ≤ s1.players.length := by
  cases op with
  | connect px py c cid cx cy =>
    simp only [step] at h
    injection h with h
    subst h
    simp only [GameServer.handleConnection] at ht ⊢
    split at ht
    next hcond =>
      rw [if_pos hcond]
      simpa [GameServer.spawnCoin] using hcond.1
    next hcond =>
      have h2 : s.gameStarted = true := ht
      rw [hf] at h2
      simp at h2
  | disconnect pid =>
    simp only [step] at h
    injection h with h
    subst h
    have h2 : s.gameStarted = true := ht
    rw [hf] at h2
    simp at h2
  | message pid m =>
    simp only [step] at h
    injection h with h
    subst h
    rw [handleMessage_gameStarted] at ht
    rw [hf] at ht
    simp at ht
  | tick =>
    simp only [step, GameServer.gameLoopTick] at h
    by_cases hg : s.gameStarted = true
    · rw [hg] at hf
      simp at hf
    · rw [if_neg hg] at h
      injection h with h
      subst h
      exact absurd ht hg
  | coinSpawn cid cx cy =>
    simp only [step] at h
    injection h with h
    subst h
    simp only [GameServer.coinSpawnTick] at ht
    split at ht
    next hc =>
      have h2 := hc.1
      rw [hf] at h2
      simp at h2
    next hc =>
      have h2 : s.gameStarted = true := ht
      rw [hf] at h2
      simp at h2

theorem runOps_started_origin : ∀ (ops : List Op) (s s' : ServerState),
    runOps s ops = Except.ok s' → s.gameStarted = false → s'.gameStarted = true →
    ∃ n s1, runOps s (List.take n ops) = Except.ok s1
      ∧ 2 ≤ s1.players.length ∧ s1.gameStarted = true := by
  intro ops
  induction ops with
  | nil =>
    intro s s' h hf ht
    simp only [runOps] at h
    injection h with h
    rw [h, ht] at hf
    simp at hf
  | cons op ops ih =>
    intro s s' h hf ht
    simp only [runOps] at h
    split at h
    next e hs => exact Except.noConfusion h
    next s1 hs =>
      by_cases h1 : s1.gameStarted = true
      · refine ⟨1, s1, ?_, step_flip s op s1 hs hf h1, h1⟩
        simp only [List.take, runOps, hs]
      · have h1f : s1.gameStarted = false := by
          cases hb : s1.gameStarted
          · rfl
          · exact absurd hb h1
        obtain ⟨n, s2, hrun, hlen, hst⟩ := ih s1 s' h h1f ht
        refine ⟨n + 1, s2, ?_, hlen, hst⟩
        simp only [List.take, runOps, hs]
        exact hrun

/-- C6: before the game has started, the game-loop tick and the coin-spawn
trigger leave the state unchanged while registrations are still accepted;
along any run from the initial state the started flag is set exactly when
the roster has reached two players (and the transition point itself had two
players); the flag is never cleared again, even across disconnects; and once
started the periodic spawn trigger spawns a coin when fewer than 5 are live
and is a no-op at 5 or more. -/
theorem C6_idle_until_started :
    (∀ s : ServerState, s.gameStarted = false →
        GameServer.gameLoopTick s = Except.ok s
      ∧ ∀ cid cx cy, GameServer.coinSpawnTick cid cx cy s = s)
  ∧ (∀ (s : ServerState) px py col cid cx cy,
        (GameServer.handleConnection px py col cid cx cy s).players.length
          = s.players.length + 1)
  ∧ (∀ s op s1, step s op = Except.ok s1 → s.gameStarted = true →
        s1.gameStarted = true)
  ∧ (∀ ops s', runOps initialServerState ops = Except.ok s' →
        2 ≤ s'.players.length → s'.gameStarted = true)
  ∧ (∀ ops s', runOps initialServerState ops = Except.ok s' →
        s'.gameStarted = true →
        ∃ n s1, runOps initialServerState (List.take n ops) = Except.ok s1
          ∧ 2 ≤ s1.players.length ∧ s1.gameStarted = true)
  ∧ (∀ s cid cx cy, s.gameStarted = true → s.coins.length < 5 →
        GameServer.coinSpawnTick cid cx cy s = GameServer.spawnCoin cid cx cy s)
  ∧ (∀ s cid cx cy, 5 ≤ s.coins.length →
        GameServer.coinSpawnTick cid cx cy s = s) := by
  refine ⟨?_, ?_, step_started_mono, ?_, ?_, ?_, ?_⟩
  · intro s hf
    constructor
    · simp [GameServer.gameLoopTick, hf]
    · intro cid cx cy
      simp [GameServer.coinSpawnTick, hf]
  · intro s px py col cid cx cy
    simp only [GameServer.handleConnection]
    split <;> simp [GameServer.spawnCoin]
  · intro ops s' h
    exact runOps_two_inv ops initialServerState s' h
      (by intro h2; simp [initialServerState] at h2)
  · intro ops s' h ht
    exact runOps_started_origin ops initialServerState s' h rfl ht
  · intro s cid cx cy h1 h2
    simp only [GameServer.coinSpawnTick]
    rw [if_pos ⟨h1, h2⟩]
  · intro s cid cx cy h5
    simp only [GameServer.coinSpawnTick]
    rw [if_neg]
    rintro ⟨_, hlt⟩
    omega

/-- C6 witness: the initial (idle) state is untouched by tick and spawn
triggers, and a concrete started state below the coin cap spawns. -/
theorem C6_idle_until_started_witness :
    GameServer.gameLoopTick initialServerState = Except.ok initialServerState
  ∧ GameServer.coinSpawnTick 7 1 2 initialServerState = initialServerState
  ∧ GameServer.coinSpawnTick 7 1 2 exC2s = GameServer.spawnCoin 7 1 2 exC2s := by
  refine ⟨(C6_idle_until_started.1 initialServerState rfl).1,
    (C6_idle_until_started.1 initialServerState rfl).2 7 1 2, ?_⟩
  exact C6_idle_until_started.2.2.2.2.2.1 exC2s 7 1 2 rfl (by norm_num [exC2s])

/-- C7 counterexample: a parseable input message with no `inputs` field is
accepted without error and stores `undefined` as the player's intent
wholesale (nothing is coerced to boolean false), and the very next tick
then fails with a TypeError instead of executing without error. -/
theorem C7_counterexample :
    GameServer.handleMessage 1 (some exC7msg) exC7s = exC7s1
  ∧ exC7s1.players.map Player.inputs = [JSVal.undef, GameServer.defaultInputs]
  ∧ GameServer.update exC7s1 = Except.error errorUndefinedRead := by
  refine ⟨?_, ?_, ?_⟩
  · norm_num [GameServer.handleMessage, GameServer.isInputMsg, getField, lookupField,
      exC7msg, exC7s, exC7s1, exPlayerA, exPlayerB, exPlayerAUndef, List.find?]
    exact fun h => absurd h (by decide)
  · norm_num [exC7s1, exPlayerAUndef, exPlayerB]
  · norm_num [GameServer.update, GameServer.tickPlayers, GameServer.movePlayer,
      readFlag, exC7s1, exPlayerAUndef]

/-- C7 amended: handleMessage itself is total — a parse failure or an
unknown player id is a no-op, and an input message replaces the stored
intent wholesale with whatever `data.inputs` holds; flag fields are read
by JS truthiness at tick time rather than being coerced to booleans at
store time; and a subsequent tick executes without error precisely under
the extra condition that no stored intent is undefined or null. -/
theorem C7_setInput_total :
    (∀ pid s, GameServer.handleMessage pid none s = s)
  ∧ (∀ pid v s, s.players.find? (fun p => p.id == pid) = none →
        GameServer.handleMessage pid (some v) s = s)
  ∧ (∀ pid v s q, s.players.find? (fun p => p.id == pid) = some q →
      GameServer.isInputMsg v = true →
        GameServer.handleMessage pid (some v) s
          = { s with players := s.players.map (fun p =>
              if p.id == pid then { p with inputs := getField v ("inputs") } else p) })
  ∧ (∀ v k, v ≠ JSVal.undef → v ≠ JSVal.null →
        readFlag v k = Except.ok (truthy (getField v k)))
  ∧ (∀ s : ServerState,
      (∀ p ∈ s.players, p.inputs ≠ JSVal.undef ∧ p.inputs ≠ JSVal.null) →
        ∃ s', GameServer.update s = Except.ok s') := by
  refine ⟨fun pid s => rfl, ?_, ?_, ?_, ?_⟩
  · intro pid v s hn
    simp only [GameServer.handleMessage, hn]
  · intro pid v s q hq hinput
    simp only [GameServer.handleMessage, hq, hinput, if_true]
  · intro v k h1 h2
    cases v with
    | undef => exact absurd rfl h1
    | null => exact absurd rfl h2
    | bool b => rfl
    | num n => rfl
    | str s => rfl
    | obj fs => rfl
  · intro s hs
    suffices h : ∀ (ps : List Player) (coins : List Coin),
        (∀ p ∈ ps, p.inputs ≠ JSVal.undef ∧ p.inputs ≠ JSVal.null) →
        ∃ r, GameServer.tickPlayers ps coins = Except.ok r by
      obtain ⟨r, hr⟩ := h s.players s.coins hs
      exact ⟨{ s with players := r.1, coins := r.2 },
        by simp only [GameServer.update, hr]⟩
    intro ps
    induction ps with
    | nil => intro coins _; exact ⟨([], coins), rfl⟩
    | cons p ps ih =>
      intro coins hps
      obtain ⟨hu, hn⟩ := hps p (List.mem_cons_self p ps)
      have hm := movePlayer_eq_of_readable p hu hn
      obtain ⟨rest, hrest⟩ :=
        ih (GameServer.checkCoinCollisions (GameServer.movedPlayer p) coins).2
          (fun q hq => hps q (List.mem_cons_of_mem p hq))
      exact ⟨((GameServer.checkCoinCollisions (GameServer.movedPlayer p) coins).1
        :: rest.1, rest.2), by simp only [GameServer.tickPlayers, hm, hrest]⟩

/-- C7 witness: a parse failure leaves the concrete state untouched, and a
state whose stored intents are all well-formed ticks without error. -/
theorem C7_setInput_total_witness :
    GameServer.handleMessage 1 none exC7s = exC7s
  ∧ (∃ s', GameServer.update exC2s = Except.ok s') := by
  refine ⟨C7_setInput_total.1 1 exC7s, C7_setInput_total.2.2.2.2 exC2s ?_⟩
  intro p hp
  simp only [exC2s, List.mem_singleton] at hp
  rw [hp]
  simp [exPlayerA, GameServer.defaultInputs]

end CoinGame
